import Mathlib

/-!
Shallow embedding of the news-mcp-server core: the ranking engine
(ranking module), the cache store (storage/database.ts), the RSS feed
configuration manager (storage/config.ts) and the refresh-cache
orchestration of the aggregation facade (index.ts).

Numbers: JavaScript numbers are modelled as exact rationals (`Rat`) for
scores and as integers (`Int`, milliseconds or seconds since the epoch)
for timestamps.  Optional TypeScript fields become `Option`; JavaScript
truthiness tests on them are modelled explicitly.
-/

namespace NewsMcp

/-- JavaScript truthiness of an optional string: `undefined` and `""` are falsy. -/
def strTruthy : Option String → Bool
  | none => false
  | some s => !(s == "")

/-- JavaScript truthiness of an optional number: `undefined` and `0` are falsy. -/
def natTruthy : Option Nat → Bool
  | none => false
  | some n => !(n == 0)

/-- `FeedItem` from types.ts.  `published_at` and `cached_at` are epoch
milliseconds (JS `Date`); `rank_score` is optional as in the interface. -/
structure FeedItem where
  id : String
  source : String
  title : String
  url : String
  content : Option String := none
  author : Option String := none
  points : Option Nat := none
  comments : Option Nat := none
  published_at : Int
  cached_at : Int
  rank_score : Option Rat := none
  deriving Repr, DecidableEq

/-- A keyword category of the ranking module: a keyword list and a weight. -/
structure KeywordCategory where
  keywords : List String
  weight : Rat
  deriving Repr, DecidableEq

/-- `BOOST_KEYWORDS` from the ranking module, in object-literal order. -/
def BOOST_KEYWORDS : List KeywordCategory := [
  ⟨["claude-code", "claude code", "vscode", "vs code", "visual studio code",
    "github", "aws", "cloudflare", "cursor", "ruby on rails", "rails",
    "copilot", "typescript", "react", "node.js", "nodejs"], 50⟩,
  ⟨["ai development", "prompt engineering", "llm", "agent", "agents",
    "langchain", "openai", "anthropic", "claude", "gpt",
    "embeddings", "rag", "fine-tuning", "ai coding", "code generation",
    "mcp", "model context protocol"], 30⟩,
  ⟨["app security", "application security", "appsec", "vulnerability",
    "pentest", "penetration testing", "exploit", "security testing",
    "owasp", "xss", "sql injection", "csrf", "authentication",
    "authorization", "secure coding", "security audit"], 30⟩,
  ⟨["how to", "tutorial", "guide", "technique", "best practices",
    "deep dive", "case study", "implementation", "walkthrough",
    "explained", "introducing", "new feature", "update", "release"], 20⟩]

/-- `PENALTY_KEYWORDS` from the ranking module, in object-literal order. -/
def PENALTY_KEYWORDS : List KeywordCategory := [
  ⟨["raises", "funding", "series a", "series b", "series c",
    "valuation", "ipo", "acquisition", "acquires", "invested",
    "investment", "venture capital", "vc", "seed round"], -40⟩,
  ⟨["announces partnership", "strategic partnership", "collaboration",
    "expands into", "appoints", "names", "ceo", "rebrands"], -20⟩]

/-- Contiguous-subsequence test on character lists (JS `String.includes`). -/
def infixOfChars (needle : List Char) : List Char → Bool
  | [] => needle.isEmpty
  | c :: rest => needle.isPrefixOf (c :: rest) || infixOfChars needle rest

/-- Lower-case a string into its character list (JS `toLowerCase` on ASCII). -/
def lowerChars (s : String) : List Char := s.data.map Char.toLower

/-- JS `text.includes(keyword.toLowerCase())` where `text` is already lower-cased. -/
def includesLC (text : List Char) (keyword : String) : Bool :=
  infixOfChars (lowerChars keyword) text

/-- The scanned text: lower-cased concatenation of title, a space, and
content (empty when absent), as built in calculateKeywordScore. -/
def itemText (item : FeedItem) : List Char :=
  lowerChars (item.title ++ " " ++ item.content.getD "")

/-- One category's contribution: the inner loop of calculateKeywordScore
adds the category weight at the first matching keyword and breaks. -/
def categoryScore (text : List Char) (cat : KeywordCategory) : Rat :=
  match cat.keywords.find? (fun k => includesLC text k) with
  | some _ => cat.weight
  | none => 0

/-- `calculateKeywordScore` from the ranking module: fold the boost
categories, then the penalty categories, over one accumulator. -/
def calculateKeywordScore (item : FeedItem) : Rat :=
  let text := itemText item
  let boosted := BOOST_KEYWORDS.foldl (fun acc cat => acc + categoryScore text cat) 0
  PENALTY_KEYWORDS.foldl (fun acc cat => acc + categoryScore text cat) boosted

/-- `calculateEngagementScore`: 0.1 per point, 0.05 per comment, with
JS truthiness guards on the optional fields. -/
def calculateEngagementScore (item : FeedItem) : Rat :=
  let s1 : Rat := if natTruthy item.points then ((item.points.getD 0 : Nat) : Rat) * (1 / 10) else 0
  let s2 : Rat := if natTruthy item.comments then ((item.comments.getD 0 : Nat) : Rat) * (1 / 20) else 0
  s1 + s2

/-- `calculateRecencyScore`: linear decay from 100 to 0 over 100 hours.
`now` and `published_at` are epoch milliseconds. -/
def calculateRecencyScore (now : Int) (item : FeedItem) : Rat :=
  let ageInHours : Rat := ((now - item.published_at : Int) : Rat) / 3600000
  max 0 (100 - ageInHours)

/-- Premium source tags of `calculateSourceScore`. -/
def premiumSources : List String :=
  ["hackernews", "rss:awsblog", "rss:cloudflare", "rss:github",
   "rss:tldr-ai", "rss:tldr-infosec", "rss:krebs"]

/-- General (lower-signal) source tags of `calculateSourceScore`. -/
def generalSources : List String := ["rss:techcrunch", "rss:verge"]

/-- `calculateSourceScore`: substring lookup of the lower-cased source tag. -/
def calculateSourceScore (item : FeedItem) : Rat :=
  let source := lowerChars item.source
  if premiumSources.any (fun s => infixOfChars s.data source) then 20
  else if generalSources.any (fun s => infixOfChars s.data source) then -10
  else 0

/-- `calculateRankScore`: sum of the four components, clamped at 0. -/
def calculateRankScore (now : Int) (item : FeedItem) : Rat :=
  let keywordScore := calculateKeywordScore item
  let engagementScore := calculateEngagementScore item
  let recencyScore := calculateRecencyScore now item
  let sourceScore := calculateSourceScore item
  let totalScore := keywordScore + engagementScore + recencyScore + sourceScore
  max 0 totalScore

/-- Modelled from the spec (section 4.1): the keyword component sums, over
all categories in enumeration order, the category weight when some keyword
of the category occurs in the scanned text, and 0 otherwise.  Used to
compare the code's first-hit-then-break loop against the spec's wording. -/
def specKeywordScore (item : FeedItem) : Rat :=
  let text := itemText item
  ((BOOST_KEYWORDS ++ PENALTY_KEYWORDS).map (fun cat =>
    if ∃ k ∈ cat.keywords, includesLC text k = true then cat.weight else 0)).sum

/-- The worked example item of the spec (section 8): title
"New AI agent released", empty content, 200 points, 50 comments,
source hackernews, published one hour before scoring time. -/
def exampleItem : FeedItem :=
  ⟨"hn:1", "hackernews", "New AI agent released", "https://example.com",
   some "", none, some 200, some 50, 0, 0, none⟩

/-- Scoring time for the worked example: one hour after publication. -/
def exampleNow : Int := 3600000

/-- The first-hit-then-break inner loop pays the weight exactly when some
keyword of the category occurs in the text. -/
theorem categoryScore_eq_any (text : List Char) (cat : KeywordCategory) :
    categoryScore text cat =
      if cat.keywords.any (fun k => includesLC text k) then cat.weight else 0 := by
  unfold categoryScore
  rcases h : cat.keywords.find? (fun k => includesLC text k) with _ | k
  · have : cat.keywords.any (fun k => includesLC text k) = false := by
      rw [List.any_eq_false]
      intro x hx
      simpa using List.find?_eq_none.mp h x hx
    simp [this]
  · have : cat.keywords.any (fun k => includesLC text k) = true := by
      rw [List.any_eq_true]
      exact ⟨k, List.mem_of_find?_eq_some h, List.find?_some h⟩
    simp [this]

/-- Folding score contributions over a category list adds their sum. -/
theorem foldl_add_categoryScore (text : List Char) (l : List KeywordCategory) (init : Rat) :
    l.foldl (fun acc cat => acc + categoryScore text cat) init
      = init + (l.map (fun cat => categoryScore text cat)).sum := by
  induction l generalizing init with
  | nil => simp
  | cons c t ih => simp [ih, add_assoc]

/-- C2 (counterexample): on the spec's worked example item the keyword
component is 50, not the claimed 30 — "release" also matches the
practical-content category (+20) on top of "agent" (+30). -/
theorem exampleItem_keyword_not_thirty :
    calculateKeywordScore exampleItem = 50 ∧ ¬ calculateKeywordScore exampleItem = 30 := by
  have h : calculateKeywordScore exampleItem = 50 := by
    simp +decide [calculateKeywordScore, BOOST_KEYWORDS, PENALTY_KEYWORDS, categoryScore_eq_any]
    norm_num
  exact ⟨h, by rw [h]; norm_num⟩

/-- C2 (amended): the worked example scores keyword 50 (30 for "agent" plus
20 for "release"), engagement 22.5, recency 99, source 20, total 191.5. -/
theorem exampleItem_score_breakdown :
    calculateKeywordScore exampleItem = 50
    ∧ calculateEngagementScore exampleItem = 45 / 2
    ∧ calculateRecencyScore exampleNow exampleItem = 99
    ∧ calculateSourceScore exampleItem = 20
    ∧ calculateRankScore exampleNow exampleItem = 383 / 2 := by
  refine ⟨?_, ?_, ?_, ?_, ?_⟩
  · simp +decide [calculateKeywordScore, BOOST_KEYWORDS, PENALTY_KEYWORDS, categoryScore_eq_any]
    norm_num
  · simp +decide [calculateEngagementScore, exampleItem, natTruthy]
    norm_num
  · simp [calculateRecencyScore, exampleItem, exampleNow]
    norm_num
  · simp +decide [calculateSourceScore]
  · simp +decide [calculateRankScore, calculateKeywordScore, BOOST_KEYWORDS, PENALTY_KEYWORDS,
      categoryScore_eq_any, calculateEngagementScore, calculateRecencyScore, calculateSourceScore,
      exampleItem, exampleNow, natTruthy]
    norm_num

/-- C3: for every item and every scoring time — future publication dates and
arbitrarily many penalty matches included — the rank score is at least 0,
because the component sum is clamped by the final max. -/
theorem rankScore_nonneg (now : Int) (item : FeedItem) :
    0 ≤ calculateRankScore now item := by
  unfold calculateRankScore
  exact le_max_left _ _

/-- C4: the keyword component counts at most one hit per category — the
first-hit-then-break loop is extensionally the sum, over all categories in
enumeration order, of the weight of each category with some matching
keyword; extra hits inside a matched category contribute nothing. -/
theorem keywordScore_once_per_category (item : FeedItem) :
    calculateKeywordScore item = specKeywordScore item := by
  unfold calculateKeywordScore specKeywordScore
  rw [foldl_add_categoryScore, foldl_add_categoryScore]
  simp only [List.map_append, List.sum_append, zero_add, categoryScore_eq_any, List.any_eq_true]

/-!
## Cache store (storage/database.ts)

A row of the `feed_items` table.  The SQLite table is modelled as a
`List Row`; the `id TEXT PRIMARY KEY` invariant is the `Nodup` of the ids.
`published_at` and `cached_at` are stored in epoch seconds, as written by
`saveFeedItem` (`Math.floor(getTime() / 1000)`).  The re-materialisation of
rows into `FeedItem`s on read (multiplying the stored seconds by 1000) is a
field-wise bijection and is left implicit: the query theorems speak about
the selected, ordered rows.
-/

structure Row where
  id : String
  source : String
  title : String
  url : String
  content : Option String
  author : Option String
  points : Option Nat
  comments : Option Nat
  published_at : Int
  cached_at : Int
  rank_score : Rat
  deriving Repr, DecidableEq

/-- JS `x || null` on an optional string bound as a SQL parameter. -/
def orNullStr : Option String → Option String
  | some s => if s = "" then none else some s
  | none => none

/-- JS `x || null` on an optional number bound as a SQL parameter. -/
def orNullNat : Option Nat → Option Nat
  | some n => if n = 0 then none else some n
  | none => none

/-- The row written by `saveFeedItem` for an item: falsy optionals become
NULL, timestamps are floored to seconds, a missing rank score becomes 0. -/
def toRow (item : FeedItem) : Row :=
  ⟨item.id, item.source, item.title, item.url,
   orNullStr item.content, orNullStr item.author,
   orNullNat item.points, orNullNat item.comments,
   item.published_at.fdiv 1000, item.cached_at.fdiv 1000,
   item.rank_score.getD 0⟩

/-- `saveFeedItem`: `INSERT OR REPLACE` keyed on `id` — the conflicting row
is deleted and the fresh row inserted (with a fresh rowid, hence at the
end in scan order). -/
def saveFeedItem (item : FeedItem) (db : List Row) : List Row :=
  db.filter (fun r => r.id != item.id) ++ [toRow item]

/-- `saveFeedItems`: upsert each item in order (one transaction). -/
def saveFeedItems (items : List FeedItem) (db : List Row) : List Row :=
  items.foldl (fun acc item => saveFeedItem item acc) db

/-- Options of `getFeedItems`.  `since` is epoch milliseconds (a JS Date). -/
structure QueryOptions where
  source : Option String
  limit : Option Nat
  since : Option Int
  deriving Repr, DecidableEq

/-- The WHERE clause built by `getFeedItems`: the source condition is added
only when `options.source` is truthy (non-empty), the `published_at`
condition only when `options.since` is present. -/
def rowMatches (opts : QueryOptions) (r : Row) : Bool :=
  (match opts.source with
   | some s => if s = "" then true else r.source == s
   | none => true) &&
  (match opts.since with
   | some t => decide (t.fdiv 1000 ≤ r.published_at)
   | none => true)

/-- The ORDER BY key of `getFeedItems` and `searchFeedItems`:
`rank_score DESC, published_at DESC`. -/
def rowLE (a b : Row) : Prop :=
  b.rank_score < a.rank_score
    ∨ (a.rank_score = b.rank_score ∧ b.published_at ≤ a.published_at)

instance : DecidableRel rowLE := fun a b =>
  inferInstanceAs (Decidable (b.rank_score < a.rank_score
    ∨ (a.rank_score = b.rank_score ∧ b.published_at ≤ a.published_at)))

instance : IsTrans Row rowLE where
  trans a b c hab hbc := by
    rcases hab with h1 | h1
    · rcases hbc with h2 | h2
      · exact Or.inl (lt_trans h2 h1)
      · exact Or.inl (h2.1 ▸ h1)
    · rcases hbc with h2 | h2
      · exact Or.inl (h1.1.symm ▸ h2)
      · exact Or.inr ⟨h1.1.trans h2.1, le_trans h2.2 h1.2⟩

instance : IsTotal Row rowLE where
  total a b := by
    rcases lt_trichotomy a.rank_score b.rank_score with h | h | h
    · exact Or.inr (Or.inl h)
    · rcases le_total b.published_at a.published_at with hp | hp
      · exact Or.inl (Or.inr ⟨h, hp⟩)
      · exact Or.inr (Or.inr ⟨h.symm, hp⟩)
    · exact Or.inl (Or.inl h)

/-- `getFeedItems`: filter by the optional conditions, order by
`rank_score DESC, published_at DESC`, and append LIMIT only when
`options.limit` is truthy (non-zero). -/
def getFeedItems (opts : QueryOptions) (db : List Row) : List Row :=
  let rows := (db.filter (rowMatches opts)).insertionSort rowLE
  match opts.limit with
  | some l => if l = 0 then rows else rows.take l
  | none => rows

/-- SQLite `LIKE` matching (no ESCAPE clause): `%` matches any sequence,
`_` any single character, other characters match ASCII-case-insensitively. -/
def likeMatch : List Char → List Char → Bool
  | [], t => t.isEmpty
  | '%' :: ps, t => t.tails.any (fun s => likeMatch ps s)
  | '_' :: ps, t =>
    match t with
    | [] => false
    | _ :: ts => likeMatch ps ts
  | c :: ps, t =>
    match t with
    | [] => false
    | d :: ts => (Char.toLower c == Char.toLower d) && likeMatch ps ts

/-- `searchFeedItems`: surround the raw query with `%` (no escaping of `%`
or `_`), match against title OR content (a NULL content never matches),
order like `getFeedItems`, `LIMIT` always bound (caller default 50). -/
def searchFeedItems (query : String) (limit : Nat) (db : List Row) : List Row :=
  let searchQuery := "%" ++ query ++ "%"
  let rows := (db.filter (fun r =>
    likeMatch searchQuery.data r.title.data ||
      (match r.content with
       | some c => likeMatch searchQuery.data c.data
       | none => false))).insertionSort rowLE
  rows.take limit

/-- `getAllSources`: `SELECT DISTINCT source` (order immaterial here). -/
def getAllSources (db : List Row) : List String :=
  (db.map (fun r => r.source)).dedup

/-- `clearOldItems`: delete the rows cached before `now − days` (seconds),
returning the remaining table and the deleted count (`result.changes`). -/
def clearOldItems (now : Int) (days : Nat) (db : List Row) : List Row × Nat :=
  let cutoffDate := now.fdiv 1000 - (days : Int) * 24 * 60 * 60
  (db.filter (fun r => !decide (r.cached_at < cutoffDate)),
   (db.filter (fun r => decide (r.cached_at < cutoffDate))).length)

/-- Splitting a list by a predicate preserves total length. -/
theorem length_filter_add_length_filter_not (p : α → Bool) (l : List α) :
    (l.filter p).length + (l.filter (fun a => !(p a))).length = l.length := by
  induction l with
  | nil => rfl
  | cons a t ih => cases h : p a <;> simp [List.filter_cons, h] <;> omega

/-- C7: eviction keeps exactly the rows with `cached_at` at or after the
cutoff `now − days` (in seconds), irrespective of `published_at`, keeps
them unchanged and in order, and returns the number of deleted rows. -/
theorem clearOldItems_evicts_by_cached_at (now : Int) (days : Nat) (db : List Row) :
    ((clearOldItems now days db).1.Sublist db)
    ∧ (∀ r ∈ db, r ∈ (clearOldItems now days db).1
        ↔ now.fdiv 1000 - (days : Int) * 24 * 60 * 60 ≤ r.cached_at)
    ∧ (clearOldItems now days db).2 + (clearOldItems now days db).1.length = db.length := by
  refine ⟨List.filter_sublist _, ?_, ?_⟩
  · intro r hr
    simp [clearOldItems, List.mem_filter, hr, not_lt]
  · have := length_filter_add_length_filter_not
      (fun r : Row => decide (r.cached_at < now.fdiv 1000 - (days : Int) * 24 * 60 * 60)) db
    simpa [clearOldItems, Nat.add_comm] using this

/-- Sample rows used to instantiate the cache-store theorems. -/
def oldRow : Row := ⟨"old", "hackernews", "told", "uold", none, none, none, none, 0, 0, 5⟩

def newRow : Row := ⟨"new", "hackernews", "tnew", "unew", none, none, none, none, 100, 1000000, 7⟩

/-- C7 witness: evicting with a 7-day window at time 1000000000s keeps only
the recently cached row and reports one deletion. -/
theorem clearOldItems_evicts_by_cached_at_witness :
    ((clearOldItems 1000000000000 7 [oldRow, newRow]).1.Sublist [oldRow, newRow])
    ∧ (∀ r ∈ [oldRow, newRow], r ∈ (clearOldItems 1000000000000 7 [oldRow, newRow]).1
        ↔ (1000000000000 : Int).fdiv 1000 - (7 : Int) * 24 * 60 * 60 ≤ r.cached_at)
    ∧ (clearOldItems 1000000000000 7 [oldRow, newRow]).2
        + (clearOldItems 1000000000000 7 [oldRow, newRow]).1.length = 2 :=
  clearOldItems_evicts_by_cached_at 1000000000000 7 [oldRow, newRow]

/-- Row used for the zero-limit and wildcard-search theorems: title "abc". -/
def abcRow : Row := ⟨"i1", "s", "abc", "u", none, none, none, none, 0, 0, 0⟩

/-- Modelled from the spec (section 4.2 `query`): the filter is the plain
conjunction `source = S` whenever S is given (the empty string included)
and `published_at ≥ T` whenever the bound is given. -/
def specMatches (opts : QueryOptions) (r : Row) : Bool :=
  (match opts.source with
   | some s => r.source == s
   | none => true) &&
  (match opts.since with
   | some t => decide (t.fdiv 1000 ≤ r.published_at)
   | none => true)

/-- When the source filter is not the empty string, the WHERE clause built
by the code agrees with the spec's conjunction of predicates. -/
theorem rowMatches_eq_specMatches (opts : QueryOptions) (hs : opts.source ≠ some "")
    (r : Row) : rowMatches opts r = specMatches opts r := by
  rcases opts with ⟨src, lim, since⟩
  unfold rowMatches specMatches
  cases src with
  | none => rfl
  | some s =>
    have hne : s ≠ "" := by simpa using hs
    simp [hne]

/-- C5 (counterexample): `if (options.limit)` is falsy at 0, so a query
with limit 0 is not truncated to at most 0 items — it returns everything. -/
theorem getFeedItems_zero_limit_not_truncated :
    getFeedItems ⟨none, some 0, none⟩ [abcRow] = [abcRow]
    ∧ ¬ ((getFeedItems ⟨none, some 0, none⟩ [abcRow]).length ≤ 0) := by
  have h : getFeedItems ⟨none, some 0, none⟩ [abcRow] = [abcRow] := rfl
  exact ⟨h, by rw [h]; decide⟩

/-- C5 (amended): for a non-empty source filter and a non-zero limit, the
query returns exactly the stored rows satisfying the conjunction of the
given predicates, ordered by rank score then publication time descending,
truncated to the limit when one is given. -/
theorem getFeedItems_query_semantics (opts : QueryOptions) (db : List Row)
    (hs : opts.source ≠ some "") (hl : opts.limit ≠ some 0) :
    List.Perm (getFeedItems ⟨opts.source, none, opts.since⟩ db)
        (db.filter (fun r => specMatches opts r))
    ∧ List.Sorted rowLE (getFeedItems opts db)
    ∧ (∀ l, opts.limit = some l →
        getFeedItems opts db = (getFeedItems ⟨opts.source, none, opts.since⟩ db).take l) := by
  rcases opts with ⟨src, lim, since⟩
  have hs' : QueryOptions.source ⟨src, none, since⟩ ≠ some "" := hs
  have hrm : ∀ r, rowMatches ⟨src, none, since⟩ r = specMatches ⟨src, lim, since⟩ r := by
    intro r
    exact rowMatches_eq_specMatches ⟨src, none, since⟩ hs' r
  refine ⟨?_, ?_, ?_⟩
  · have hfe : (db.filter (rowMatches ⟨src, none, since⟩))
        = db.filter (fun r => specMatches ⟨src, lim, since⟩ r) :=
      List.filter_congr (fun r _ => hrm r)
    exact hfe ▸ List.perm_insertionSort rowLE _
  · cases lim with
    | none => exact List.sorted_insertionSort rowLE _
    | some l =>
      have hl0 : l ≠ 0 := by simpa using hl
      have hdef : getFeedItems ⟨src, some l, since⟩ db
          = ((db.filter (rowMatches ⟨src, some l, since⟩)).insertionSort rowLE).take l := by
        simp [getFeedItems, hl0]
      rw [hdef]
      exact List.Pairwise.sublist (List.take_sublist _ _) (List.sorted_insertionSort rowLE _)
  · intro l hlim
    have hlim' : lim = some l := hlim
    subst hlim'
    have hl0 : l ≠ 0 := by simpa using hl
    have hdef : getFeedItems ⟨src, some l, since⟩ db
        = ((db.filter (rowMatches ⟨src, some l, since⟩)).insertionSort rowLE).take l := by
      simp [getFeedItems, hl0]
    rw [hdef]
    rfl

/-- Query options used to instantiate the query-semantics theorem. -/
def qOpts : QueryOptions := ⟨some "hackernews", some 1, none⟩

/-- C5 witness: the amended query semantics at a concrete cache of two
hackernews rows with a source filter and limit 1. -/
theorem getFeedItems_query_semantics_witness :
    List.Perm (getFeedItems ⟨qOpts.source, none, qOpts.since⟩ [oldRow, newRow])
        ([oldRow, newRow].filter (fun r => specMatches qOpts r))
    ∧ List.Sorted rowLE (getFeedItems qOpts [oldRow, newRow])
    ∧ (∀ l, qOpts.limit = some l →
        getFeedItems qOpts [oldRow, newRow]
          = (getFeedItems ⟨qOpts.source, none, qOpts.since⟩ [oldRow, newRow]).take l) :=
  getFeedItems_query_semantics qOpts [oldRow, newRow] (by decide) (by decide)

/-- The ids of a table. -/
def rowIds (db : List Row) : List String := db.map (fun r => r.id)

/-- Upserting keeps the id column duplicate-free. -/
theorem saveFeedItem_nodup_ids (it : FeedItem) (d : List Row)
    (hd : (rowIds d).Nodup) : (rowIds (saveFeedItem it d)).Nodup := by
  unfold rowIds saveFeedItem
  rw [List.map_append, List.nodup_append]
  refine ⟨List.Nodup.sublist (List.Sublist.map _ (List.filter_sublist _)) hd, by simp, ?_⟩
  intro a ha hb
  simp only [List.map_cons, List.map_nil, List.mem_singleton] at hb
  subst hb
  simp only [List.mem_map, List.mem_filter] at ha
  obtain ⟨r, ⟨_, hr⟩, hid⟩ := ha
  rw [show (toRow it).id = it.id from rfl] at hid
  rw [hid] at hr
  simp [bne] at hr

/-- Batch upsert keeps the id column duplicate-free. -/
theorem saveFeedItems_nodup_ids (its : List FeedItem) (d : List Row)
    (hd : (rowIds d).Nodup) : (rowIds (saveFeedItems its d)).Nodup := by
  induction its generalizing d with
  | nil => exact hd
  | cons it rest ih => exact ih (saveFeedItem it d) (saveFeedItem_nodup_ids it d hd)

/-- After an upsert, exactly one row carries the upserted id: the freshly
written one. -/
theorem saveFeedItem_filter_id (it : FeedItem) (X : List Row) :
    (saveFeedItem it X).filter (fun r => r.id == it.id) = [toRow it] := by
  unfold saveFeedItem
  rw [List.filter_append, List.filter_filter]
  have hA : X.filter (fun a => (a.id == it.id) && (a.id != it.id)) = [] := by
    apply List.filter_eq_nil_iff.mpr
    intro r _
    cases hr : r.id == it.id <;> simp [bne, hr]
  have hB : List.filter (fun r => r.id == it.id) [toRow it] = [toRow it] := by
    simp [toRow]
  rw [hA, hB]
  rfl

/-- C6: writing the same id twice leaves exactly one row with that id,
carrying the second write's fields; and every cache operation preserves
the at-most-one-row-per-id invariant — upsert, batch upsert and eviction
keep the id column duplicate-free, and `getAllSources` never repeats. -/
theorem upsert_single_record_per_id (item1 item2 : FeedItem) (db : List Row)
    (h : item1.id = item2.id) :
    ((saveFeedItem item2 (saveFeedItem item1 db)).filter (fun r => r.id == item1.id)
        = [toRow item2])
    ∧ (∀ it : FeedItem, ∀ d : List Row, (rowIds d).Nodup →
        (rowIds (saveFeedItem it d)).Nodup)
    ∧ (∀ its : List FeedItem, ∀ d : List Row, (rowIds d).Nodup →
        (rowIds (saveFeedItems its d)).Nodup)
    ∧ (∀ now : Int, ∀ days : Nat, ∀ d : List Row, (rowIds d).Nodup →
        (rowIds (clearOldItems now days d).1).Nodup)
    ∧ (∀ d : List Row, (getAllSources d).Nodup) := by
  have h1 := saveFeedItem_filter_id item2 (saveFeedItem item1 db)
  rw [← h] at h1
  refine ⟨h1, saveFeedItem_nodup_ids, saveFeedItems_nodup_ids, ?_, ?_⟩
  · intro now days d hd
    exact List.Nodup.sublist (List.Sublist.map _ (List.filter_sublist _)) hd
  · intro d
    exact List.nodup_dedup _

/-- Items with the same id used to instantiate the upsert theorem. -/
def itemV1 : FeedItem := ⟨"x", "s1", "t1", "u1", none, none, none, none, 0, 0, some 1⟩

def itemV2 : FeedItem := ⟨"x", "s2", "t2", "u2", some "c", none, some 3, none, 1000, 2000, some 9⟩

/-- C6 witness: upserting `itemV1` then `itemV2` (same id "x") into an
empty cache leaves exactly the row of the second write. -/
theorem upsert_single_record_per_id_witness :
    ((saveFeedItem itemV2 (saveFeedItem itemV1 [])).filter (fun r => r.id == itemV1.id)
        = [toRow itemV2])
    ∧ (∀ it : FeedItem, ∀ d : List Row, (rowIds d).Nodup →
        (rowIds (saveFeedItem it d)).Nodup)
    ∧ (∀ its : List FeedItem, ∀ d : List Row, (rowIds d).Nodup →
        (rowIds (saveFeedItems its d)).Nodup)
    ∧ (∀ now : Int, ∀ days : Nat, ∀ d : List Row, (rowIds d).Nodup →
        (rowIds (clearOldItems now days d).1).Nodup)
    ∧ (∀ d : List Row, (getAllSources d).Nodup) :=
  upsert_single_record_per_id itemV1 itemV2 [] rfl

/-- C10: the LIKE pattern is built around the raw query, so `_` acts as a
wildcard: searching for "a_c" returns the row titled "abc" although
neither its title nor its (absent) content contains "a_c" literally. -/
theorem searchFeedItems_unescaped_wildcard :
    searchFeedItems "a_c" 50 [abcRow] = [abcRow]
    ∧ infixOfChars ("a_c".data) ("abc".data) = false
    ∧ abcRow.content = none := by
  refine ⟨rfl, by decide, rfl⟩

/-!
## Configuration manager (storage/config.ts)

`ConfigManager` holds an in-memory `rss_feeds` list and mirrors it to a
JSON file on every successful mutation.  `ConfigState` carries both: the
in-memory list (`feeds`) and the last persisted list (`disk`).
-/

structure RSSFeedConfig where
  url : String
  name : String
  refresh_interval_minutes : Option Nat := none
  deriving Repr, DecidableEq

structure ConfigState where
  feeds : List RSSFeedConfig
  disk : List RSSFeedConfig
  deriving Repr, DecidableEq

/-- `addRSSFeed`: throws when some registration already has the URL,
otherwise appends the feed and persists the new list. -/
def addRSSFeed (feed : RSSFeedConfig) (st : ConfigState) : Except String ConfigState :=
  if st.feeds.any (fun f => f.url == feed.url) then
    Except.error ("RSS feed with URL " ++ feed.url ++ " already exists")
  else
    Except.ok ⟨st.feeds ++ [feed], st.feeds ++ [feed]⟩

/-- `removeRSSFeed`: filter out the registrations with the given name;
persist and report true only when the list shrank. -/
def removeRSSFeed (nm : String) (st : ConfigState) : ConfigState × Bool :=
  let newFeeds := st.feeds.filter (fun f => f.name != nm)
  if newFeeds.length < st.feeds.length then (⟨newFeeds, newFeeds⟩, true)
  else (⟨newFeeds, st.disk⟩, false)

/-- C8: adding a feed whose URL is already registered fails with the
duplicate error (so neither the in-memory list nor the persisted file
gains an entry), while a fresh URL is appended and persisted. -/
theorem addRSSFeed_duplicate_url (feed : RSSFeedConfig) (st : ConfigState) :
    ((∃ g ∈ st.feeds, g.url = feed.url) →
        addRSSFeed feed st
          = Except.error ("RSS feed with URL " ++ feed.url ++ " already exists"))
    ∧ ((∀ g ∈ st.feeds, g.url ≠ feed.url) →
        addRSSFeed feed st = Except.ok ⟨st.feeds ++ [feed], st.feeds ++ [feed]⟩) := by
  constructor
  · intro hdup
    obtain ⟨g, hg, hurl⟩ := hdup
    have hany : st.feeds.any (fun f => f.url == feed.url) = true :=
      List.any_eq_true.mpr ⟨g, hg, beq_iff_eq.mpr hurl⟩
    simp [addRSSFeed, hany]
  · intro hfresh
    have hany : st.feeds.any (fun f => f.url == feed.url) = false := by
      rw [List.any_eq_false]
      intro f hf
      simpa using hfresh f hf
    simp [addRSSFeed, hany]

/-- Registration feeds used to instantiate the configuration theorems. -/
def feedA : RSSFeedConfig := ⟨"u1", "a", none⟩

def feedSameName : RSSFeedConfig := ⟨"u2", "a", none⟩

def feedSameUrl : RSSFeedConfig := ⟨"u1", "b", none⟩

/-- C8 witness: against a list holding `feedA` (url "u1"), adding url "u1"
again fails with the duplicate error, and adding url "u2" appends it. -/
theorem addRSSFeed_duplicate_url_witness :
    (addRSSFeed feedSameUrl ⟨[feedA], [feedA]⟩
        = Except.error ("RSS feed with URL " ++ feedSameUrl.url ++ " already exists"))
    ∧ (addRSSFeed feedSameName ⟨[feedA], [feedA]⟩
        = Except.ok ⟨[feedA] ++ [feedSameName], [feedA] ++ [feedSameName]⟩) :=
  ⟨(addRSSFeed_duplicate_url feedSameUrl ⟨[feedA], [feedA]⟩).1 ⟨feedA, by decide, by decide⟩,
   (addRSSFeed_duplicate_url feedSameName ⟨[feedA], [feedA]⟩).2 (by decide)⟩

/-- The configuration states reachable from the empty registration list by
successful adds and by removes. -/
inductive Reachable : ConfigState → Prop where
  | init : Reachable ⟨[], []⟩
  | addStep (st st' : ConfigState) (feed : RSSFeedConfig) :
      Reachable st → addRSSFeed feed st = Except.ok st' → Reachable st'
  | removeStep (st : ConfigState) (nm : String) :
      Reachable st → Reachable (removeRSSFeed nm st).1

/-- The state with two registrations sharing the name "a". -/
def dupNameState : ConfigState := ⟨[feedA, feedSameName], [feedA, feedSameName]⟩

/-- C9 (counterexample): `addRSSFeed` only guards the URL, so two
registrations with the same name but different URLs are both accepted —
names are not a unique key in reachable states. -/
theorem reachable_duplicate_names :
    Reachable dupNameState
    ∧ ¬ ((dupNameState.feeds.map (fun f => f.name)).Nodup) := by
  constructor
  · have h1 : addRSSFeed feedA ⟨[], []⟩ = Except.ok ⟨[feedA], [feedA]⟩ := rfl
    have h2 : addRSSFeed feedSameName ⟨[feedA], [feedA]⟩ = Except.ok dupNameState := rfl
    exact Reachable.addStep _ _ _ (Reachable.addStep _ _ _ Reachable.init h1) h2
  · decide

/-- C9 (amended): in every reachable state the registration URLs are
pairwise distinct — `url` is a unique key preserved by every add and
remove; names carry no such invariant. -/
theorem reachable_urls_nodup (st : ConfigState) (h : Reachable st) :
    ((st.feeds.map (fun f => f.url)).Nodup) := by
  induction h with
  | init => simp
  | addStep st0 st1 feed hr heq ih =>
    unfold addRSSFeed at heq
    cases hany : st0.feeds.any (fun f => f.url == feed.url) with
    | true => rw [hany] at heq; simp at heq
    | false =>
      rw [hany] at heq
      simp only [Bool.false_eq_true, if_false, Except.ok.injEq] at heq
      rw [← heq]
      simp only [List.map_append, List.map_cons, List.map_nil]
      rw [List.nodup_append]
      refine ⟨ih, by simp, ?_⟩
      intro a ha hb
      simp only [List.mem_singleton] at hb
      subst hb
      simp only [List.mem_map] at ha
      obtain ⟨f, hf, hfu⟩ := ha
      have := List.any_eq_false.mp hany f hf
      simp [hfu] at this
  | removeStep st0 nm hr ih =>
    unfold removeRSSFeed
    by_cases hlen : (st0.feeds.filter (fun f => f.name != nm)).length < st0.feeds.length
    · simp only [hlen, if_true]
      exact List.Nodup.sublist (List.Sublist.map _ (List.filter_sublist _)) ih
    · simp only [hlen, if_false]
      exact List.Nodup.sublist (List.Sublist.map _ (List.filter_sublist _)) ih

/-- C9 witness: the empty registration list is reachable and its URL
column is duplicate-free. -/
theorem reachable_urls_nodup_witness :
    (((⟨[], []⟩ : ConfigState).feeds.map (fun f => f.url)).Nodup) :=
  reachable_urls_nodup ⟨[], []⟩ Reachable.init

/-!
## Aggregation facade: refresh_cache (index.ts, handleRefreshCache)

The network adapters are external collaborators: a fetch outcome is an
`Except` value — `ok items` for a successful fetch, `error e` for a thrown
fetch error (both the Hacker News adapter and the RSS adapter rethrow).
The handler body is one big try/catch: the Hacker News branch runs
unguarded inside it, each RSS registration runs inside its own inner
try/catch, and anything escaping to the outer catch is rethrown as
"Failed to refresh cache: ...".
-/

/-- JS `!source || source === "hackernews"` (empty string is falsy). -/
def condHN : Option String → Bool
  | none => true
  | some s => s == "" || s == "hackernews"

/-- JS `!source || source.startsWith("rss:")`. -/
def condRSS : Option String → Bool
  | none => true
  | some s => s == "" || s.startsWith "rss:"

/-- `source ? rssFeeds.filter(f => "rss:" + f.name === source) : rssFeeds`. -/
def feedsToRefresh (sel : Option String) (feeds : List RSSFeedConfig) : List RSSFeedConfig :=
  match sel with
  | none => feeds
  | some s => if s == "" then feeds else feeds.filter (fun f => ("rss:" ++ f.name) == s)

def hnMsg (n : Nat) : String := "Refreshed Hacker News: " ++ toString n ++ " items"

def rssOkMsg (nm : String) (n : Nat) : String :=
  "Refreshed " ++ nm ++ ": " ++ toString n ++ " items"

def rssFailMsg (nm e : String) : String := "Failed to refresh " ++ nm ++ ": " ++ e

/-- One iteration of the RSS loop: the inner try/catch turns a fetch error
into a failure message and leaves the cache untouched; a success saves
the items and records the count. -/
def refreshRSSStep (fetchRSS : RSSFeedConfig → Except String (List FeedItem))
    (acc : List String × List Row) (feed : RSSFeedConfig) : List String × List Row :=
  match fetchRSS feed with
  | Except.ok items => (acc.1 ++ [rssOkMsg feed.name items.length], saveFeedItems items acc.2)
  | Except.error e => (acc.1 ++ [rssFailMsg feed.name e], acc.2)

/-- `handleRefreshCache` over abstract fetch outcomes: the Hacker News
branch runs without an inner guard, so its error reaches the outer catch
and the whole call throws; RSS registrations are guarded one by one. -/
def handleRefreshCache (sel : Option String)
    (hnRes : Except String (List FeedItem))
    (feeds : List RSSFeedConfig)
    (fetchRSS : RSSFeedConfig → Except String (List FeedItem))
    (db : List Row) : Except String (List String × List Row) :=
  let step1 : Except String (List String × List Row) :=
    if condHN sel then
      match hnRes with
      | Except.error e => Except.error e
      | Except.ok items => Except.ok ([hnMsg items.length], saveFeedItems items db)
    else Except.ok ([], db)
  match step1 with
  | Except.error e => Except.error ("Failed to refresh cache: " ++ e)
  | Except.ok (msgs, db1) =>
    if condRSS sel then
      Except.ok ((feedsToRefresh sel feeds).foldl (refreshRSSStep fetchRSS) (msgs, db1))
    else Except.ok (msgs, db1)

/-- Messages survive the RSS loop, and every processed registration leaves
its success-or-failure message in the final summary. -/
theorem refreshRSSFold_mem (fetchRSS : RSSFeedConfig → Except String (List FeedItem))
    (feeds : List RSSFeedConfig) (acc : List String × List Row) :
    (∀ m ∈ acc.1, m ∈ (feeds.foldl (refreshRSSStep fetchRSS) acc).1)
    ∧ (∀ feed ∈ feeds,
        (∀ e, fetchRSS feed = Except.error e →
            rssFailMsg feed.name e ∈ (feeds.foldl (refreshRSSStep fetchRSS) acc).1)
        ∧ (∀ items, fetchRSS feed = Except.ok items →
            rssOkMsg feed.name items.length ∈ (feeds.foldl (refreshRSSStep fetchRSS) acc).1)) := by
  induction feeds generalizing acc with
  | nil => exact ⟨fun m hm => hm, by simp⟩
  | cons f rest ih =>
    have hmono : ∀ m ∈ acc.1, m ∈ (refreshRSSStep fetchRSS acc f).1 := by
      intro m hm
      unfold refreshRSSStep
      cases fetchRSS f <;> simp [hm]
    constructor
    · intro m hm
      exact (ih (refreshRSSStep fetchRSS acc f)).1 m (hmono m hm)
    · intro feed hfeed
      rcases List.mem_cons.mp hfeed with heq | hrest
      · subst heq
        constructor
        · intro e he
          apply (ih (refreshRSSStep fetchRSS acc feed)).1
          unfold refreshRSSStep
          rw [he]
          simp
        · intro items hi
          apply (ih (refreshRSSStep fetchRSS acc feed)).1
          unfold refreshRSSStep
          rw [hi]
          simp
      · exact (ih (refreshRSSStep fetchRSS acc f)).2 feed hrest

/-- An RSS registration whose fetch would succeed in the counterexample. -/
def goodFeed : RSSFeedConfig := ⟨"http://good", "good", none⟩

/-- C1 (counterexample): with one healthy RSS registration configured, a
Hacker News fetch failure is not caught per-source — the whole
refresh_cache call throws and the RSS registration is never refreshed. -/
theorem handleRefreshCache_hn_failure_aborts :
    handleRefreshCache none (Except.error "boom") [goodFeed] (fun _ => Except.ok []) []
      = Except.error ("Failed to refresh cache: boom") := rfl

/-- C1 (amended): whenever the Hacker News branch does not fail (it is not
selected, or its fetch succeeds), refresh_cache never throws: each RSS
registration's fetch failure is caught and recorded by name in the
summary, successes record their item counts, and one registration's
failure does not abort the others. -/
theorem handleRefreshCache_isolates_rss_failures (sel : Option String)
    (hnRes : Except String (List FeedItem)) (feeds : List RSSFeedConfig)
    (fetchRSS : RSSFeedConfig → Except String (List FeedItem)) (db : List Row)
    (hhn : condHN sel = true → ∃ items, hnRes = Except.ok items) :
    ∃ p : List String × List Row,
      handleRefreshCache sel hnRes feeds fetchRSS db = Except.ok p
      ∧ (condRSS sel = true →
          ∀ feed ∈ feedsToRefresh sel feeds,
            (∀ e, fetchRSS feed = Except.error e → rssFailMsg feed.name e ∈ p.1)
            ∧ (∀ items, fetchRSS feed = Except.ok items
                → rssOkMsg feed.name items.length ∈ p.1)) := by
  have main : ∀ msgs db1,
      (∃ p : List String × List Row,
        ((if condRSS sel then
          Except.ok ((feedsToRefresh sel feeds).foldl (refreshRSSStep fetchRSS) (msgs, db1))
        else Except.ok (msgs, db1)) : Except String (List String × List Row)) = Except.ok p
        ∧ (condRSS sel = true →
            ∀ feed ∈ feedsToRefresh sel feeds,
              (∀ e, fetchRSS feed = Except.error e → rssFailMsg feed.name e ∈ p.1)
              ∧ (∀ items, fetchRSS feed = Except.ok items
                  → rssOkMsg feed.name items.length ∈ p.1))) := by
    intro msgs db1
    cases hr : condRSS sel with
    | false =>
      refine ⟨(msgs, db1), by simp, ?_⟩
      intro habs
      simp at habs
    | true =>
      refine ⟨(feedsToRefresh sel feeds).foldl (refreshRSSStep fetchRSS) (msgs, db1),
        by simp, ?_⟩
      intro _ feed hfeed
      exact (refreshRSSFold_mem fetchRSS (feedsToRefresh sel feeds) (msgs, db1)).2 feed hfeed
  unfold handleRefreshCache
  cases hcond : condHN sel with
  | false =>
    simp only [hcond, Bool.false_eq_true, if_false]
    exact main [] db
  | true =>
    obtain ⟨items, hok⟩ := hhn hcond
    rw [hok]
    simp only [hcond, if_true]
    exact main [hnMsg items.length] (saveFeedItems items db)

/-- An RSS registration whose fetch fails in the witness scenario. -/
def badFeed : RSSFeedConfig := ⟨"http://bad", "bad", none⟩

/-- The witness fetch function: the "bad" registration's fetch throws,
every other fetch returns no items. -/
def witnessFetch (f : RSSFeedConfig) : Except String (List FeedItem) :=
  if f.name == "bad" then Except.error "timeout" else Except.ok []

/-- C1 witness: refreshing all sources with a healthy Hacker News fetch,
one healthy RSS registration and one failing RSS registration yields a
summary, never a thrown error. -/
theorem handleRefreshCache_isolates_rss_failures_witness :
    ∃ p : List String × List Row,
      handleRefreshCache none (Except.ok []) [goodFeed, badFeed] witnessFetch []
        = Except.ok p
      ∧ (condRSS none = true →
          ∀ feed ∈ feedsToRefresh none [goodFeed, badFeed],
            (∀ e, witnessFetch feed = Except.error e → rssFailMsg feed.name e ∈ p.1)
            ∧ (∀ items, witnessFetch feed = Except.ok items
                → rssOkMsg feed.name items.length ∈ p.1)) :=
  handleRefreshCache_isolates_rss_failures none (Except.ok []) [goodFeed, badFeed]
    witnessFetch [] (fun _ => ⟨[], rfl⟩)

end NewsMcp
